import Mathlib

/-!
Verification of the spectral-registration procedure of the NIRSpec MOS
spectral registration notebook (`notebooks/wavelength_registration/`).

The notebook's numerical pipeline is shallowly embedded over `ℚ`
(wavelength and flux arrays become `List ℚ`); the single irrational step,
`numpy`'s standard deviation, is `Real.sqrt` of a rational variance.
External numerical primitives used by the notebook (`scipy.interpolate.interp1d`,
`np.searchsorted`, the linear least-squares fitter, `scipy.optimize.minimize`)
are modelled explicitly below, next to the notebook code that calls them.
-/

namespace SpectralRegistration

/-- Embedding of numpy `arr.min()` on a 1-D array (nonempty in the notebook). -/
def np_min : List ℚ → ℚ
  | [] => 0
  | x :: xs => xs.foldl min x

/-- Embedding of numpy `arr.max()` on a 1-D array (nonempty in the notebook). -/
def np_max : List ℚ → ℚ
  | [] => 0
  | x :: xs => xs.foldl max x

/-- Notebook: `wave_lo = max(wave1.min(), wave2.min())`. -/
def wave_lo (wave1 wave2 : List ℚ) : ℚ := max (np_min wave1) (np_min wave2)

/-- Notebook: `wave_hi = min(wave1.max(), wave2.max())`. -/
def wave_hi (wave1 wave2 : List ℚ) : ℚ := min (np_max wave1) (np_max wave2)

/-- Elementwise mask `(wave >= lo) & (wave <= hi) & (spec != 0.0)`. -/
def in_wave_mask (wave spec : List ℚ) (lo hi : ℚ) : List Bool :=
  List.zipWith (fun wv fv => decide (lo ≤ wv) && decide (wv ≤ hi) && decide (fv ≠ 0)) wave spec

/-- Notebook: `in_wave1 = (wave1 >= wave_lo) & (wave1 <= wave_hi) & (spec1 != 0.0)`. -/
def in_wave1 (wave1 spec1 wave2 : List ℚ) : List Bool :=
  in_wave_mask wave1 spec1 (wave_lo wave1 wave2) (wave_hi wave1 wave2)

/-- Notebook: `in_wave2 = (wave2 >= wave_lo) & (wave2 <= wave_hi) & (spec2 != 0.0)`. -/
def in_wave2 (wave1 wave2 spec2 : List ℚ) : List Bool :=
  in_wave_mask wave2 spec2 (wave_lo wave1 wave2) (wave_hi wave1 wave2)

/-- Numpy boolean-mask indexing `arr[mask]`: keep the entries where the mask is true. -/
def maskSelect {α : Type} (mask : List Bool) (xs : List α) : List α :=
  (mask.zip xs).filterMap (fun p => if p.1 then some p.2 else none)

/-- The overlap-selection step of the notebook as one operation: the bounds and both
masks.  The Python code raises nothing here; the function is total. -/
def overlap_select (wave1 spec1 wave2 spec2 : List ℚ) :
    (ℚ × ℚ) × List Bool × List Bool :=
  ((wave_lo wave1 wave2, wave_hi wave1 wave2),
    in_wave1 wave1 spec1 wave2, in_wave2 wave1 wave2 spec2)

/-- Notebook `alter_wave` loop body: `for c, coef in enumerate(poly_coefs):
altered_wave2 += coef * old_wave**c`, with `c` the running exponent. -/
def alter_wave_aux (poly_coefs : List ℚ) (old_wave : List ℚ) (c : ℕ) (acc : List ℚ) :
    List ℚ :=
  match poly_coefs with
  | [] => acc
  | coef :: rest =>
      alter_wave_aux rest old_wave (c + 1)
        (List.zipWith (fun a wv => a + coef * wv ^ c) acc old_wave)

/-- Notebook `alter_wave(poly_coefs, old_wave)`: start from `np.zeros_like(old_wave)`
and add `coef * old_wave**c` for each enumerated coefficient. -/
def alter_wave (poly_coefs : List ℚ) (old_wave : List ℚ) : List ℚ :=
  alter_wave_aux poly_coefs old_wave 0 (old_wave.map (fun _ => 0))

/-- Model of `np.searchsorted(xs, v)` with the default side `left` on a sorted
1-D array: the leftmost insertion index, i.e. the first index whose entry is
at least `v`, or the length when every entry is below `v`. -/
def np_searchsorted (xs : List ℚ) (v : ℚ) : ℕ :=
  match xs with
  | [] => 0
  | x :: t => if v ≤ x then 0 else np_searchsorted t v + 1

/-- Insert one `(x, y)` sample into a list of samples sorted by `x`. -/
def sortPairsInsert (p : ℚ × ℚ) : List (ℚ × ℚ) → List (ℚ × ℚ)
  | [] => [p]
  | q :: t => if p.1 ≤ q.1 then p :: q :: t else q :: sortPairsInsert p t

/-- Sort `(x, y)` samples by `x`, modelling the argsort-based reordering that
`scipy.interpolate.interp1d` performs on its knots (`assume_sorted=False`). -/
def sortPairs : List (ℚ × ℚ) → List (ℚ × ℚ)
  | [] => []
  | p :: t => sortPairsInsert p (sortPairs t)

/-- Model of `scipy.interpolate.interp1d(x, y, fill_value='extrapolate')(xnew)`:
sort the knots by `x`, locate each query with `searchsorted` clipped to
`[1, len(x)-1]`, and evaluate the straight line through the two bracketing
knots; queries outside the knot range use the first or last segment. -/
def interp1d (x y : List ℚ) (xnew : List ℚ) : List ℚ :=
  let pts := sortPairs (x.zip y)
  let xs := pts.map Prod.fst
  let ys := pts.map Prod.snd
  xnew.map (fun q =>
    let i := min (max (np_searchsorted xs q) 1) (xs.length - 1)
    let lo := i - 1
    let xlo := xs.getD lo 0
    let xhi := xs.getD i 0
    let ylo := ys.getD lo 0
    let yhi := ys.getD i 0
    ylo + (yhi - ylo) / (xhi - xlo) * (q - xlo))

/-- Model of numpy elementwise division for the ratio spectrum: a zero
denominator yields a non-finite value (`inf`/`nan`), represented as `none`;
`Option.isSome` is then exactly `np.isfinite` on the quotient. -/
def np_div (a b : ℚ) : Option ℚ := if b = 0 then none else some (a / b)

/-- Notebook: `div_spec = interp_spec2 / spec1[in_wave1]`, elementwise. -/
def div_spec_arr (interp_spec2 spec1m : List ℚ) : List (Option ℚ) :=
  List.zipWith np_div interp_spec2 spec1m

/-- Notebook: `ok_px = (np.isfinite(div_spec)) & (out_wave >= 1.70)`, with the
wavelength cutoff kept as a parameter (the notebook hard-codes `1.70`). -/
def ok_px (dv : List (Option ℚ)) (out_wave : List ℚ) (cutoff : ℚ) : List Bool :=
  List.zipWith (fun d wv => d.isSome && decide (cutoff ≤ wv)) dv out_wave

/-- Sums used by the degree-2 normal equations. -/
def lsum (l : List ℚ) : ℚ := l.sum

/-- Vector of three rationals (a coefficient triple). -/
abbrev Vec3 := ℚ × ℚ × ℚ

/-- Symmetric 3×3 rational matrix given by its rows. -/
abbrev Mat3 := Vec3 × Vec3 × Vec3

/-- Dot product of two triples. -/
def vdot (u v : Vec3) : ℚ := u.1 * v.1 + u.2.1 * v.2.1 + u.2.2 * v.2.2

/-- Matrix–vector product. -/
def mulVec3 (m : Mat3) (v : Vec3) : Vec3 := (vdot m.1 v, vdot m.2.1 v, vdot m.2.2 v)

/-- First column of a matrix. -/
def col1 (m : Mat3) : Vec3 := (m.1.1, m.2.1.1, m.2.2.1)

/-- Second column of a matrix. -/
def col2 (m : Mat3) : Vec3 := (m.1.2.1, m.2.1.2.1, m.2.2.2.1)

/-- Third column of a matrix. -/
def col3 (m : Mat3) : Vec3 := (m.1.2.2, m.2.1.2.2, m.2.2.2.2)

/-- Matrix–matrix product. -/
def mulMat3 (m n : Mat3) : Mat3 :=
  ((vdot m.1 (col1 n), vdot m.1 (col2 n), vdot m.1 (col3 n)),
    (vdot m.2.1 (col1 n), vdot m.2.1 (col2 n), vdot m.2.1 (col3 n)),
    (vdot m.2.2 (col1 n), vdot m.2.2 (col2 n), vdot m.2.2 (col3 n)))

/-- Scalar multiple of a matrix. -/
def smulMat3 (c : ℚ) (m : Mat3) : Mat3 :=
  ((c * m.1.1, c * m.1.2.1, c * m.1.2.2),
    (c * m.2.1.1, c * m.2.1.2.1, c * m.2.1.2.2),
    (c * m.2.2.1, c * m.2.2.2.1, c * m.2.2.2.2))

/-- Difference of two matrices. -/
def subMat3 (m n : Mat3) : Mat3 :=
  ((m.1.1 - n.1.1, m.1.2.1 - n.1.2.1, m.1.2.2 - n.1.2.2),
    (m.2.1.1 - n.2.1.1, m.2.1.2.1 - n.2.1.2.1, m.2.1.2.2 - n.2.1.2.2),
    (m.2.2.1 - n.2.2.1, m.2.2.2.1 - n.2.2.2.1, m.2.2.2.2 - n.2.2.2.2))

/-- Identity matrix. -/
def idMat3 : Mat3 := ((1, 0, 0), (0, 1, 0), (0, 0, 1))

/-- Trace. -/
def traceMat3 (m : Mat3) : ℚ := m.1.1 + m.2.1.2.1 + m.2.2.2.2

/-- Sum of the principal 2×2 minors (the second characteristic invariant). -/
def minor2sum (m : Mat3) : ℚ :=
  (m.1.1 * m.2.1.2.1 - m.1.2.1 * m.2.1.1) +
    (m.1.1 * m.2.2.2.2 - m.1.2.2 * m.2.2.1) +
    (m.2.1.2.1 * m.2.2.2.2 - m.2.1.2.2 * m.2.2.2.1)

/-- Determinant. -/
def detMat3 (m : Mat3) : ℚ :=
  m.1.1 * (m.2.1.2.1 * m.2.2.2.2 - m.2.1.2.2 * m.2.2.2.1) -
    m.1.2.1 * (m.2.1.1 * m.2.2.2.2 - m.2.1.2.2 * m.2.2.1) +
    m.1.2.2 * (m.2.1.1 * m.2.2.2.1 - m.2.1.2.1 * m.2.2.1)

/-- Adjugate (transpose of the cofactor matrix). -/
def adjMat3 (m : Mat3) : Mat3 :=
  ((m.2.1.2.1 * m.2.2.2.2 - m.2.1.2.2 * m.2.2.2.1,
      m.1.2.2 * m.2.2.2.1 - m.1.2.1 * m.2.2.2.2,
      m.1.2.1 * m.2.1.2.2 - m.1.2.2 * m.2.1.2.1),
    (m.2.1.2.2 * m.2.2.1 - m.2.1.1 * m.2.2.2.2,
      m.1.1 * m.2.2.2.2 - m.1.2.2 * m.2.2.1,
      m.1.2.2 * m.2.1.1 - m.1.1 * m.2.1.2.2),
    (m.2.1.1 * m.2.2.2.1 - m.2.1.2.1 * m.2.2.1,
      m.1.2.1 * m.2.2.1 - m.1.1 * m.2.2.2.1,
      m.1.1 * m.2.1.2.1 - m.1.2.1 * m.2.1.1))

/-- Moore–Penrose pseudoinverse of a symmetric positive-semidefinite 3×3
matrix, by rank (read off the characteristic invariants, which for a PSD
matrix decide how many eigenvalues are nonzero): full rank uses the adjugate
over the determinant; rank 2 uses `(aI − M)² M / q²` (with `a` the trace and
`q` the second invariant, interpolating `1/λ` on the two nonzero eigenvalues
and `0` on the kernel); rank 1 uses `M / a²`; the zero matrix is its own
pseudoinverse.  This is exactly the minimum-norm behaviour of
`np.linalg.lstsq` expressed through the normal equations. -/
def pinv3PSD (m : Mat3) : Mat3 :=
  let a := traceMat3 m
  let q := minor2sum m
  let d := detMat3 m
  if d ≠ 0 then smulMat3 (1 / d) (adjMat3 m)
  else if q ≠ 0 then
    smulMat3 (1 / q ^ 2)
      (mulMat3 (mulMat3 (subMat3 (smulMat3 a idMat3) m) (subMat3 (smulMat3 a idMat3) m)) m)
  else if a ≠ 0 then smulMat3 (1 / a ^ 2) m
  else m

/-- Model of the linear least-squares fitter the notebook calls
(`astropy.modeling.fitting.LinearLSQFitter` on a `Polynomial1D(2)` model,
pinned astropy 3.2.dev), step by step: build the Vandermonde design matrix
`lhs` with columns `1, x, x²`; column-normalize it by
`scl = (lhs * lhs).sum(0) = (N, Σx², Σx⁴)` (`lhs /= scl`); solve the scaled
system with `np.linalg.lstsq` — its minimum-norm solution is computed exactly
here through the pseudoinverse of the scaled normal matrix, and an empty
sample set gives the zero solution; finally rescale the solution by
`lacoef = (lacoef.T / scl).T` with numpy division semantics (`np_div`), so a
zero `scl` — exactly the empty fit set — turns the zero solution into
non-finite `0/0` (`NaN`) coefficients, modelled as `none`.  In the unphysical
sub-case of a nonempty sample set whose wavelengths are all exactly zero,
`lhs /= scl` creates `NaN` columns and the pinned stack fails inside
`np.linalg.lstsq`; that case is likewise modelled as non-finite coefficients
and is exercised by no claim. -/
def linlsq_fit2 (xs ys : List ℚ) : Option ℚ × Option ℚ × Option ℚ :=
  let n : ℚ := xs.length
  let s1 := lsum xs
  let s2 := lsum (xs.map (fun x => x ^ 2))
  let s3 := lsum (xs.map (fun x => x ^ 3))
  let s4 := lsum (xs.map (fun x => x ^ 4))
  let t0 := lsum ys
  let t1 := lsum (List.zipWith (fun x y => x * y) xs ys)
  let t2 := lsum (List.zipWith (fun x y => x ^ 2 * y) xs ys)
  let scl0 := n
  let scl1 := s2
  let scl2 := s4
  if n ≠ 0 ∧ (scl1 = 0 ∨ scl2 = 0) then (none, none, none)
  else
    let ms : Mat3 :=
      ((n / (scl0 * scl0), s1 / (scl0 * scl1), s2 / (scl0 * scl2)),
        (s1 / (scl1 * scl0), s2 / (scl1 * scl1), s3 / (scl1 * scl2)),
        (s2 / (scl2 * scl0), s3 / (scl2 * scl1), s4 / (scl2 * scl2)))
    let vs : Vec3 := (t0 / scl0, t1 / scl1, t2 / scl2)
    let sol := mulVec3 (pinv3PSD ms) vs
    (np_div sol.1 scl0, np_div sol.2.1 scl1, np_div sol.2.2 scl2)

/-- Notebook: `normalization = fitter(norm_model, out_wave[ok_px], div_spec[ok_px])`:
fit the degree-2 polynomial to the filtered ratio samples.  The Python code
performs no emptiness check and raises nothing; the function is total. -/
def normalization (dv : List (Option ℚ)) (out_wave : List ℚ) (cutoff : ℚ) :
    Option ℚ × Option ℚ × Option ℚ :=
  linlsq_fit2 (maskSelect (ok_px dv out_wave cutoff) out_wave)
    ((maskSelect (ok_px dv out_wave cutoff) dv).map (fun d => d.getD 0))

/-- Notebook `alter_spec(wave)`: resample the masked second spectrum from the
(warped) wavelength grid onto `out_wave` by linear interpolation with
extrapolation.  The closure-captured arrays are explicit parameters here. -/
def alter_spec (wave : List ℚ) (spec2m : List ℚ) (out_wave : List ℚ) : List ℚ :=
  interp1d wave spec2m out_wave

/-- Numpy `arr.mean()`. -/
def np_mean (xs : List ℚ) : ℚ := xs.sum / xs.length

/-- Numpy variance with the default `ddof=0`: the mean of the squared
deviations from the mean, i.e. the population variance with divisor `N`. -/
def np_var (xs : List ℚ) : ℚ := np_mean (xs.map (fun x => (x - np_mean xs) ^ 2))

/-- Numpy `arr.std()` with the default `ddof=0`: the square root of `np_var`. -/
noncomputable def np_std (xs : List ℚ) : ℝ := Real.sqrt (np_var xs)

/-- Notebook: `diff_spec = altered_spec2 - scaled_spec1` inside `fit_metric`,
with the warped wavelengths and resampling spelled out. -/
def diff_spec (poly_coefs old_wave spec2m out_wave scaled_spec1 : List ℚ) : List ℚ :=
  List.zipWith (fun a b => a - b)
    (alter_spec (alter_wave poly_coefs old_wave) spec2m out_wave) scaled_spec1

/-- Notebook `fit_metric(poly_coefs, old_wave)`: warp the wavelengths, resample
the second spectrum, subtract the scaled reference, and return the standard
deviation of the difference spectrum.  The closure-captured arrays
(`spec2[in_wave2]`, `out_wave`, `scaled_spec1`) are explicit parameters. -/
noncomputable def fit_metric (poly_coefs old_wave spec2m out_wave scaled_spec1 : List ℚ) : ℝ :=
  np_std (diff_spec poly_coefs old_wave spec2m out_wave scaled_spec1)

/-- Result record of the external minimizer, holding what
`scipy.optimize.minimize` reports: best parameters, convergence flag, final
objective value and iteration count. -/
structure OptimizeResult where
  x : List ℚ
  success : Bool
  fun_val : ℝ
  nit : ℕ

/-- Notebook: `pixel_fit = minimize(fit_metric, np.array([0., 1., 0.]),
args=(wave2[in_wave2],), method='Nelder-Mead')`.  The external minimizer is an
explicit argument; the notebook binds its entire result and raises nothing. -/
noncomputable def pixel_fit_step
    (minimize : (List ℚ → List ℚ → ℝ) → List ℚ → List ℚ → OptimizeResult)
    (spec2m out_wave scaled_spec1 old_wave : List ℚ) : OptimizeResult :=
  minimize (fun coefs w => fit_metric coefs w spec2m out_wave scaled_spec1)
    [0, 1, 0] old_wave

/-! ### Helper lemmas about the list operations used by the embedding -/

lemma getD_zipWith {α β γ : Type} (f : α → β → γ) (da : α) (db : β) (dc : γ) :
    ∀ (a : List α) (b : List β) (j : ℕ), j < a.length → j < b.length →
      (List.zipWith f a b).getD j dc = f (a.getD j da) (b.getD j db) := by
  intro a
  induction a with
  | nil => intro b j h _; simp at h
  | cons x t ih =>
      intro b j h1 h2
      cases b with
      | nil => simp at h2
      | cons y u =>
          cases j with
          | zero => simp [List.zipWith]
          | succ k =>
              simp only [List.zipWith, List.getD_cons_succ]
              exact ih u k (by simpa using h1) (by simpa using h2)

lemma sum_map_eq_range_sum (f : ℚ → ℚ) :
    ∀ (l : List ℚ), (l.map f).sum = ∑ i in Finset.range l.length, f (l.getD i 0) := by
  intro l
  induction l with
  | nil => simp
  | cons x t ih =>
      simp only [List.map_cons, List.sum_cons, List.length_cons]
      rw [Finset.sum_range_succ']
      simp only [List.getD_cons_succ, List.getD_cons_zero]
      rw [ih]
      ring

lemma sum_eq_range_sum (l : List ℚ) :
    l.sum = ∑ i in Finset.range l.length, l.getD i 0 := by
  have h := sum_map_eq_range_sum (fun x => x) l
  simpa using h

lemma alter_wave_aux_length (old_wave : List ℚ) :
    ∀ (coefs : List ℚ) (c : ℕ) (acc : List ℚ), acc.length = old_wave.length →
      (alter_wave_aux coefs old_wave c acc).length = old_wave.length := by
  intro coefs
  induction coefs with
  | nil => intro c acc h; simpa [alter_wave_aux] using h
  | cons coef rest ih =>
      intro c acc h
      simp only [alter_wave_aux]
      exact ih (c + 1) _ (by simp [h])

lemma alter_wave_length (coefs old_wave : List ℚ) :
    (alter_wave coefs old_wave).length = old_wave.length :=
  alter_wave_aux_length old_wave coefs 0 _ (by simp)

lemma alter_wave_aux_getD (old_wave : List ℚ) (j : ℕ) (hj : j < old_wave.length) :
    ∀ (coefs : List ℚ) (c : ℕ) (acc : List ℚ), acc.length = old_wave.length →
      (alter_wave_aux coefs old_wave c acc).getD j 0 =
        acc.getD j 0 +
          ∑ k in Finset.range coefs.length, coefs.getD k 0 * (old_wave.getD j 0) ^ (c + k) := by
  intro coefs
  induction coefs with
  | nil => intro c acc h; simp [alter_wave_aux]
  | cons coef rest ih =>
      intro c acc h
      simp only [alter_wave_aux]
      rw [ih (c + 1) _ (by simp [h])]
      rw [getD_zipWith (fun a wv => a + coef * wv ^ c) 0 0 0 acc old_wave j
        (by omega) hj]
      simp only [List.length_cons]
      rw [Finset.sum_range_succ']
      simp only [List.getD_cons_succ, List.getD_cons_zero]
      have hexp : ∀ k : ℕ, c + 1 + k = c + (k + 1) := by intro k; omega
      have hsum :
          (∑ k in Finset.range rest.length,
              rest.getD k 0 * (old_wave.getD j 0) ^ (c + 1 + k)) =
            ∑ k in Finset.range rest.length,
              rest.getD k 0 * (old_wave.getD j 0) ^ (c + (k + 1)) := by
        refine Finset.sum_congr rfl ?_
        intro k _
        rw [hexp k]
      rw [hsum]
      ring

lemma alter_wave_getD (coefs old_wave : List ℚ) (j : ℕ) (hj : j < old_wave.length) :
    (alter_wave coefs old_wave).getD j 0 =
      ∑ k in Finset.range coefs.length, coefs.getD k 0 * (old_wave.getD j 0) ^ k := by
  unfold alter_wave
  rw [alter_wave_aux_getD old_wave j hj coefs 0 _ (by simp)]
  have hz : (old_wave.map (fun _ => (0 : ℚ))).getD j 0 = 0 := by
    rw [List.getD_eq_getElem _ _ (by simpa using hj)]
    simp
  rw [hz]
  simp

lemma eq_replicate_false_of_forall_getD_false :
    ∀ (l : List Bool), (∀ j, j < l.length → l.getD j false = false) →
      l = List.replicate l.length false := by
  intro l
  induction l with
  | nil => intro _; rfl
  | cons b t ih =>
      intro h
      have hb : b = false := by
        have := h 0 (by simp)
        simpa using this
      have ht : t = List.replicate t.length false := by
        refine ih ?_
        intro j hj
        have := h (j + 1) (by simpa using hj)
        simpa using this
      simp only [List.length_cons, List.replicate_succ]
      rw [hb, ← ht]

lemma maskSelect_eq_nil_of_all_false {α : Type} :
    ∀ (mask : List Bool) (xs : List α), (∀ b ∈ mask, b = false) →
      maskSelect mask xs = [] := by
  intro mask
  induction mask with
  | nil => intro xs _; simp [maskSelect]
  | cons b m ih =>
      intro xs h
      cases xs with
      | nil => simp [maskSelect]
      | cons x t =>
          have hb : b = false := h b (by simp)
          simp only [maskSelect, List.zip_cons_cons, List.filterMap_cons]
          rw [hb]
          simp only [Bool.false_eq_true, if_false]
          exact ih t (fun b hb2 => h b (by simp [hb2]))

lemma maskSelect_zipWith_snd {α β : Type} (p : α → β → Bool) :
    ∀ (a : List α) (b : List β),
      maskSelect (List.zipWith p a b) b =
        ((a.zip b).filter (fun q => p q.1 q.2)).map Prod.snd := by
  intro a
  induction a with
  | nil => intro b; simp [maskSelect]
  | cons x t ih =>
      intro b
      cases b with
      | nil => simp [maskSelect]
      | cons y u =>
          simp only [List.zipWith_cons_cons, List.zip_cons_cons, List.filter_cons,
            maskSelect, List.filterMap_cons]
          by_cases hp : p x y
          · rw [hp]
            simp only [if_true]
            have := ih u
            simp only [maskSelect] at this
            simp [this]
          · simp only [hp]
            have := ih u
            simp only [maskSelect] at this
            simp [this, hp]

lemma maskSelect_zipWith_fst {α β : Type} (p : α → β → Bool) :
    ∀ (a : List α) (b : List β),
      maskSelect (List.zipWith p a b) a =
        ((a.zip b).filter (fun q => p q.1 q.2)).map Prod.fst := by
  intro a
  induction a with
  | nil => intro b; simp [maskSelect]
  | cons x t ih =>
      intro b
      cases b with
      | nil => simp [maskSelect]
      | cons y u =>
          simp only [List.zipWith_cons_cons, List.zip_cons_cons, List.filter_cons,
            maskSelect, List.filterMap_cons]
          by_cases hp : p x y
          · rw [hp]
            simp only [if_true]
            have := ih u
            simp only [maskSelect] at this
            simp [this]
          · simp only [hp]
            have := ih u
            simp only [maskSelect] at this
            simp [this, hp]

lemma foldl_min_le (t : List ℚ) : ∀ a : ℚ, t.foldl min a ≤ a := by
  induction t with
  | nil => intro a; simp
  | cons x u ih =>
      intro a
      simp only [List.foldl_cons]
      exact le_trans (ih (min a x)) (min_le_left a x)

lemma foldl_min_le_of_mem (t : List ℚ) : ∀ a x : ℚ, x ∈ t → t.foldl min a ≤ x := by
  induction t with
  | nil => intro a x hx; simp at hx
  | cons y u ih =>
      intro a x hx
      rcases List.mem_cons.mp hx with h | h
      · subst h
        simp only [List.foldl_cons]
        exact le_trans (foldl_min_le u (min a x)) (min_le_right a x)
      · exact ih (min a y) x h

lemma foldl_min_mem (t : List ℚ) : ∀ a : ℚ, t.foldl min a = a ∨ t.foldl min a ∈ t := by
  induction t with
  | nil => intro a; left; rfl
  | cons y u ih =>
      intro a
      simp only [List.foldl_cons]
      rcases ih (min a y) with h | h
      · rcases min_choice a y with hm | hm
        · left; rw [h, hm]
        · right; rw [h, hm]; exact List.mem_cons_self y u
      · right; exact List.mem_cons.mpr (Or.inr h)

/-- For a nonempty array, `np_min` is an element and a lower bound: it is the
minimum that `numpy` returns. -/
lemma np_min_spec (l : List ℚ) (h : l ≠ []) :
    np_min l ∈ l ∧ ∀ x ∈ l, np_min l ≤ x := by
  cases l with
  | nil => exact absurd rfl h
  | cons a t =>
      refine ⟨?_, ?_⟩
      · rcases foldl_min_mem t a with h1 | h1
        · rw [np_min, h1]; exact List.mem_cons_self a t
        · rw [np_min]; exact List.mem_cons.mpr (Or.inr h1)
      · intro x hx
        rcases List.mem_cons.mp hx with h1 | h1
        · subst h1; exact foldl_min_le t x
        · exact foldl_min_le_of_mem t a x h1

lemma foldl_max_ge (t : List ℚ) : ∀ a : ℚ, a ≤ t.foldl max a := by
  induction t with
  | nil => intro a; simp
  | cons x u ih =>
      intro a
      simp only [List.foldl_cons]
      exact le_trans (le_max_left a x) (ih (max a x))

lemma foldl_max_ge_of_mem (t : List ℚ) : ∀ a x : ℚ, x ∈ t → x ≤ t.foldl max a := by
  induction t with
  | nil => intro a x hx; simp at hx
  | cons y u ih =>
      intro a x hx
      rcases List.mem_cons.mp hx with h | h
      · subst h
        simp only [List.foldl_cons]
        exact le_trans (le_max_right a x) (foldl_max_ge u (max a x))
      · exact ih (max a y) x h

lemma foldl_max_mem (t : List ℚ) : ∀ a : ℚ, t.foldl max a = a ∨ t.foldl max a ∈ t := by
  induction t with
  | nil => intro a; left; rfl
  | cons y u ih =>
      intro a
      simp only [List.foldl_cons]
      rcases ih (max a y) with h | h
      · rcases max_choice a y with hm | hm
        · left; rw [h, hm]
        · right; rw [h, hm]; exact List.mem_cons_self y u
      · right; exact List.mem_cons.mpr (Or.inr h)

/-- For a nonempty array, `np_max` is an element and an upper bound: it is the
maximum that `numpy` returns. -/
lemma np_max_spec (l : List ℚ) (h : l ≠ []) :
    np_max l ∈ l ∧ ∀ x ∈ l, x ≤ np_max l := by
  cases l with
  | nil => exact absurd rfl h
  | cons a t =>
      refine ⟨?_, ?_⟩
      · rcases foldl_max_mem t a with h1 | h1
        · rw [np_max, h1]; exact List.mem_cons_self a t
        · rw [np_max]; exact List.mem_cons.mpr (Or.inr h1)
      · intro x hx
        rcases List.mem_cons.mp hx with h1 | h1
        · subst h1; exact foldl_max_ge t x
        · exact foldl_max_ge_of_mem t a x h1

lemma in_wave_mask_getD (wave spec : List ℚ) (lo hi : ℚ) (j : ℕ)
    (hw : j < wave.length) (hs : j < spec.length) :
    ((in_wave_mask wave spec lo hi).getD j false = true ↔
      (lo ≤ wave.getD j 0 ∧ wave.getD j 0 ≤ hi ∧ spec.getD j 0 ≠ 0)) := by
  unfold in_wave_mask
  rw [getD_zipWith _ 0 0 false wave spec j hw hs]
  simp [and_assoc]

/-! ### Claim theorems -/

/-- Claim C1: overlap selection computes the bounds
`lo = max(min(w1), min(w2))`, `hi = min(max(w1), max(w2))` and, for each
spectrum, a boolean mask selecting sample `j` exactly when
`lo ≤ w[j] ≤ hi` and the flux at `j` is nonzero; in particular a sample with
flux exactly `0` is excluded even when its wavelength is in range. -/
theorem overlap_mask_selects_iff (wave1 spec1 wave2 spec2 : List ℚ) (j k : ℕ)
    (hl1 : spec1.length = wave1.length) (hj : j < wave1.length)
    (hl2 : spec2.length = wave2.length) (hk : k < wave2.length) :
    ((in_wave1 wave1 spec1 wave2).getD j false = true ↔
      (max (np_min wave1) (np_min wave2) ≤ wave1.getD j 0 ∧
        wave1.getD j 0 ≤ min (np_max wave1) (np_max wave2) ∧
        spec1.getD j 0 ≠ 0)) ∧
    ((in_wave2 wave1 wave2 spec2).getD k false = true ↔
      (max (np_min wave1) (np_min wave2) ≤ wave2.getD k 0 ∧
        wave2.getD k 0 ≤ min (np_max wave1) (np_max wave2) ∧
        spec2.getD k 0 ≠ 0)) := by
  constructor
  · have h := in_wave_mask_getD wave1 spec1 (wave_lo wave1 wave2) (wave_hi wave1 wave2)
      j hj (hl1 ▸ hj)
    simpa [in_wave1, wave_lo, wave_hi] using h
  · have h := in_wave_mask_getD wave2 spec2 (wave_lo wave1 wave2) (wave_hi wave1 wave2)
      k hk (hl2 ▸ hk)
    simpa [in_wave2, wave_lo, wave_hi] using h

/-- Concrete instance of `overlap_mask_selects_iff`: two short spectra with one
zero-flux sample. -/
theorem overlap_mask_selects_iff_witness :
    (([(1 : ℚ), 0]).length = ([(1 : ℚ), 2]).length ∧ 0 < ([(1 : ℚ), 2]).length ∧
      ([(1 : ℚ), 1]).length = ([(2 : ℚ), 3]).length ∧ 0 < ([(2 : ℚ), 3]).length) ∧
    (((in_wave1 [1, 2] [1, 0] [2, 3]).getD 0 false = true ↔
      (max (np_min [1, 2]) (np_min [2, 3]) ≤ ([(1 : ℚ), 2]).getD 0 0 ∧
        ([(1 : ℚ), 2]).getD 0 0 ≤ min (np_max [1, 2]) (np_max [2, 3]) ∧
        ([(1 : ℚ), 0]).getD 0 0 ≠ 0)) ∧
    ((in_wave2 [1, 2] [2, 3] [1, 1]).getD 0 false = true ↔
      (max (np_min [1, 2]) (np_min [2, 3]) ≤ ([(2 : ℚ), 3]).getD 0 0 ∧
        ([(2 : ℚ), 3]).getD 0 0 ≤ min (np_max [1, 2]) (np_max [2, 3]) ∧
        ([(1 : ℚ), 1]).getD 0 0 ≠ 0))) :=
  ⟨⟨by decide, by decide, by decide, by decide⟩,
    overlap_mask_selects_iff [1, 2] [1, 0] [2, 3] [1, 1] 0 0
      (by decide) (by decide) (by decide) (by decide)⟩

/-- Claim C3: `alter_wave` returns the array whose `j`-th entry is the power
sum `c0 + c1*w[j] + ... + cn*w[j]^n`, i.e. direct polynomial evaluation of the
coefficients at each wavelength, on an array of the same length. -/
theorem alter_wave_is_power_sum (poly_coefs old_wave : List ℚ) (j : ℕ)
    (hj : j < old_wave.length) :
    (alter_wave poly_coefs old_wave).getD j 0 =
      ∑ k in Finset.range poly_coefs.length,
        poly_coefs.getD k 0 * (old_wave.getD j 0) ^ k ∧
    (alter_wave poly_coefs old_wave).length = old_wave.length :=
  ⟨alter_wave_getD poly_coefs old_wave j hj, alter_wave_length poly_coefs old_wave⟩

/-- Concrete instance of `alter_wave_is_power_sum`:
`alter_wave [2, 3, 4] [5]` evaluates `2 + 3*5 + 4*25 = 117` at index `0`. -/
theorem alter_wave_is_power_sum_witness :
    0 < ([(5 : ℚ)]).length ∧
    ((alter_wave [2, 3, 4] [5]).getD 0 0 =
      ∑ k in Finset.range ([(2 : ℚ), 3, 4]).length,
        ([(2 : ℚ), 3, 4]).getD k 0 * (([(5 : ℚ)]).getD 0 0) ^ k ∧
      (alter_wave [2, 3, 4] [5]).length = ([(5 : ℚ)]).length) :=
  ⟨by decide, alter_wave_is_power_sum [2, 3, 4] [5] 0 (by decide)⟩

/-- Claim C8: the initial-guess vector `[0, 1, 0]` of the dispersion-warp
minimization is an identity mapping: `alter_wave [0, 1, 0]` returns every
wavelength array unchanged. -/
theorem alter_wave_identity_guess (old_wave : List ℚ) :
    alter_wave [0, 1, 0] old_wave = old_wave := by
  apply List.ext_getElem (alter_wave_length [0, 1, 0] old_wave)
  intro i h1 h2
  have h := alter_wave_getD [0, 1, 0] old_wave i h2
  rw [List.getD_eq_getElem _ _ h1] at h
  rw [h, ← List.getD_eq_getElem old_wave 0 h2]
  simp [Finset.sum_range_succ]

/-- Claim C10: `alter_wave` with an empty coefficient vector returns, without
any error, the all-zero array of the same shape as the input. -/
theorem alter_wave_empty_coefs (old_wave : List ℚ) :
    alter_wave [] old_wave = List.replicate old_wave.length 0 := by
  simp [alter_wave, alter_wave_aux]

lemma in_wave_mask_getD_false (wave spec : List ℚ) (lo hi : ℚ) (j : ℕ)
    (hw : j < wave.length) (hs : j < spec.length)
    (h : wave.getD j 0 < lo ∨ hi < wave.getD j 0 ∨ spec.getD j 0 = 0) :
    (in_wave_mask wave spec lo hi).getD j false = false := by
  rw [Bool.eq_false_iff]
  intro htrue
  obtain ⟨hlo, hhi, hf⟩ := (in_wave_mask_getD wave spec lo hi j hw hs).mp htrue
  rcases h with hc | hc | hc
  · exact absurd hlo (not_le.mpr hc)
  · exact absurd hhi (not_le.mpr hc)
  · exact hf hc

lemma all_false_of_forall_getD (l : List Bool)
    (h : ∀ j, j < l.length → l.getD j false = false) : ∀ b ∈ l, b = false := by
  intro b hb
  obtain ⟨i, hi, hEq⟩ := List.mem_iff_getElem.mp hb
  rw [← hEq, ← List.getD_eq_getElem l false hi]
  exact h i hi

lemma in_wave_mask_length (wave spec : List ℚ) (lo hi : ℚ) :
    (in_wave_mask wave spec lo hi).length = min wave.length spec.length := by
  simp [in_wave_mask]

/-- Claim C5: on spectra whose wavelength ranges do not overlap
(`wave_hi < wave_lo`), overlap selection signals no error: it returns normally
with all-false masks, whose applications select empty sample lists; checking
for empty outputs is left to the caller. -/
theorem overlap_disjoint_silent_empty (wave1 spec1 wave2 spec2 : List ℚ)
    (h : wave_hi wave1 wave2 < wave_lo wave1 wave2) :
    in_wave1 wave1 spec1 wave2 =
      List.replicate (in_wave1 wave1 spec1 wave2).length false ∧
    in_wave2 wave1 wave2 spec2 =
      List.replicate (in_wave2 wave1 wave2 spec2).length false ∧
    maskSelect (in_wave1 wave1 spec1 wave2) wave1 = [] ∧
    maskSelect (in_wave2 wave1 wave2 spec2) wave2 = [] := by
  have key : ∀ (wave spec : List ℚ), ∀ j,
      j < (in_wave_mask wave spec (wave_lo wave1 wave2) (wave_hi wave1 wave2)).length →
      (in_wave_mask wave spec (wave_lo wave1 wave2) (wave_hi wave1 wave2)).getD j false
        = false := by
    intro wave spec j hj
    rw [in_wave_mask_length] at hj
    refine in_wave_mask_getD_false wave spec _ _ j (by omega) (by omega) ?_
    rcases le_or_lt (wave_lo wave1 wave2) (wave.getD j 0) with hc | hc
    · exact Or.inr (Or.inl (lt_of_lt_of_le h hc))
    · exact Or.inl hc
  refine ⟨?_, ?_, ?_, ?_⟩
  · exact eq_replicate_false_of_forall_getD_false _ (key wave1 spec1)
  · exact eq_replicate_false_of_forall_getD_false _ (key wave2 spec2)
  · exact maskSelect_eq_nil_of_all_false _ _
      (all_false_of_forall_getD _ (key wave1 spec1))
  · exact maskSelect_eq_nil_of_all_false _ _
      (all_false_of_forall_getD _ (key wave2 spec2))

/-- Concrete instance of `overlap_disjoint_silent_empty`: the ranges `[1, 2]`
and `[5, 6]` are disjoint and both masks come back all false. -/
theorem overlap_disjoint_silent_empty_witness :
    wave_hi [1, 2] [5, 6] < wave_lo [1, 2] [5, 6] ∧
    (in_wave1 [1, 2] [1, 1] [5, 6] =
      List.replicate (in_wave1 [1, 2] [1, 1] [5, 6]).length false ∧
    in_wave2 [1, 2] [5, 6] [1, 1] =
      List.replicate (in_wave2 [1, 2] [5, 6] [1, 1]).length false ∧
    maskSelect (in_wave1 [1, 2] [1, 1] [5, 6]) ([1, 2] : List ℚ) = [] ∧
    maskSelect (in_wave2 [1, 2] [5, 6] [1, 1]) ([5, 6] : List ℚ) = []) :=
  ⟨by decide, overlap_disjoint_silent_empty [1, 2] [1, 1] [5, 6] [1, 1] (by decide)⟩

/-- Error value that claim C4 says overlap selection raises. -/
inductive EmptyOverlapError where
  | emptyOverlap
deriving DecidableEq

/-- Definition following the claim's words for C4, as a refinement target: an
overlap selection that fails with `EmptyOverlapError` whenever one of the masks
selects nothing (disjoint ranges, or all overlapping samples of zero flux). -/
def overlap_select_claimed (wave1 spec1 wave2 spec2 : List ℚ) :
    Except EmptyOverlapError ((ℚ × ℚ) × List Bool × List Bool) :=
  let r := overlap_select wave1 spec1 wave2 spec2
  if (r.2.1.all fun b => !b) || (r.2.2.all fun b => !b) then
    Except.error EmptyOverlapError.emptyOverlap
  else Except.ok r

/-- Counterexample to claim C4: on the disjoint spectra `[0, 1]` and `[10, 11]`
the claimed behaviour is an `EmptyOverlapError`, but the notebook's overlap
selection returns normally with all-false masks — no error is raised anywhere
in the code, so the claimed exception cannot be propagated. -/
theorem overlap_emptyOverlapError_counterexample :
    overlap_select_claimed [0, 1] [1, 1] [10, 11] [1, 1] =
      Except.error EmptyOverlapError.emptyOverlap ∧
    overlap_select [0, 1] [1, 1] [10, 11] [1, 1] =
      ((10, 1), [false, false], [false, false]) := by
  constructor
  · rfl
  · rfl

/-- Claim C4 amended: overlap selection raises nothing.  When every sample of
each spectrum is out of the overlap range or has zero flux (covering disjoint
ranges and the all-zero-flux case alike), it returns normally, with the bounds
and an all-false mask for each spectrum; emptiness checking is the caller's
responsibility. -/
theorem overlap_select_no_error (wave1 spec1 wave2 spec2 : List ℚ)
    (h1 : ∀ j, j < wave1.length →
      wave1.getD j 0 < wave_lo wave1 wave2 ∨ wave_hi wave1 wave2 < wave1.getD j 0 ∨
        spec1.getD j 0 = 0)
    (h2 : ∀ j, j < wave2.length →
      wave2.getD j 0 < wave_lo wave1 wave2 ∨ wave_hi wave1 wave2 < wave2.getD j 0 ∨
        spec2.getD j 0 = 0) :
    overlap_select wave1 spec1 wave2 spec2 =
      ((wave_lo wave1 wave2, wave_hi wave1 wave2),
        List.replicate (in_wave1 wave1 spec1 wave2).length false,
        List.replicate (in_wave2 wave1 wave2 spec2).length false) := by
  have key1 : ∀ j, j < (in_wave1 wave1 spec1 wave2).length →
      (in_wave1 wave1 spec1 wave2).getD j false = false := by
    intro j hj
    rw [in_wave1, in_wave_mask_length] at hj
    exact in_wave_mask_getD_false wave1 spec1 _ _ j (by omega) (by omega)
      (h1 j (by omega))
  have key2 : ∀ j, j < (in_wave2 wave1 wave2 spec2).length →
      (in_wave2 wave1 wave2 spec2).getD j false = false := by
    intro j hj
    rw [in_wave2, in_wave_mask_length] at hj
    exact in_wave_mask_getD_false wave2 spec2 _ _ j (by omega) (by omega)
      (h2 j (by omega))
  unfold overlap_select
  rw [← eq_replicate_false_of_forall_getD_false _ key1,
    ← eq_replicate_false_of_forall_getD_false _ key2]

/-- Concrete instance of `overlap_select_no_error`: overlapping ranges whose
flux is identically zero still produce no error, only all-false masks. -/
theorem overlap_select_no_error_witness :
    (∀ j, j < ([(1 : ℚ), 2]).length →
      ([(1 : ℚ), 2]).getD j 0 < wave_lo [1, 2] [1, 2] ∨
        wave_hi [1, 2] [1, 2] < ([(1 : ℚ), 2]).getD j 0 ∨
        ([(0 : ℚ), 0]).getD j 0 = 0) ∧
    overlap_select [1, 2] [0, 0] [1, 2] [0, 0] =
      ((wave_lo [1, 2] [1, 2], wave_hi [1, 2] [1, 2]),
        List.replicate (in_wave1 [1, 2] [0, 0] [1, 2]).length false,
        List.replicate (in_wave2 [1, 2] [1, 2] [0, 0]).length false) :=
  ⟨by decide, overlap_select_no_error [1, 2] [0, 0] [1, 2] [0, 0]
    (by decide) (by decide)⟩

lemma linlsq_fit2_nil (ys : List ℚ) : linlsq_fit2 [] ys = (none, none, none) := by
  norm_num [linlsq_fit2, lsum, np_div, pinv3PSD, detMat3, minor2sum, traceMat3,
    adjMat3, smulMat3, subMat3, mulMat3, idMat3, mulVec3, vdot, col1, col2, col3]

/-- Error value that claim C6 says the normalization fit raises. -/
inductive DomainError where
  | insufficientSamples
deriving DecidableEq

/-- Definition following the claim's words for C6, as a refinement target: a
continuum-normalization fit that fails with
`DomainError` (insufficient samples for normalization fit) when no sample of
the ratio array passes the finite-and-above-cutoff filter. -/
def normalization_claimed (dv : List (Option ℚ)) (out_wave : List ℚ) (cutoff : ℚ) :
    Except DomainError (Option ℚ × Option ℚ × Option ℚ) :=
  if maskSelect (ok_px dv out_wave cutoff) out_wave = [] then
    Except.error DomainError.insufficientSamples
  else Except.ok (normalization dv out_wave cutoff)

/-- Counterexample to claim C6: with the single ratio sample at wavelength `1`
(below the cutoff `17/10`) the fit set is empty, the claimed behaviour is a
`DomainError`, but the notebook's normalization performs no check: the fitter
solves the empty system (zero minimum-norm solution) and then rescales by the
zero column norms `scl`, silently returning non-finite `NaN` coefficients. -/
theorem normalization_domainError_counterexample :
    normalization_claimed [some 1] [1] (17 / 10) =
      Except.error DomainError.insufficientSamples ∧
    maskSelect (ok_px [some 1] [1] (17 / 10)) ([1] : List ℚ) = [] ∧
    normalization [some 1] [1] (17 / 10) = (none, none, none) := by
  refine ⟨?_, ?_, ?_⟩
  · norm_num [normalization_claimed, maskSelect, ok_px, List.filterMap_cons]
  · norm_num [maskSelect, ok_px, List.filterMap_cons]
  · have hxs : maskSelect (ok_px [some 1] [1] (17 / 10)) ([1] : List ℚ) = [] := by
      norm_num [maskSelect, ok_px, List.filterMap_cons]
    unfold normalization
    rw [hxs]
    exact linlsq_fit2_nil _

/-- Claim C6 amended: on an empty fit set the notebook raises nothing — no
`DomainError` exists in the code; the `LinearLSQFitter` solves the empty
column-normalized system (`np.linalg.lstsq` zero minimum-norm solution) and
its rescale by the zero column norms `scl` silently turns that into `0/0`:
degenerate non-finite (`NaN`) coefficients. -/
theorem normalization_empty_fit_degenerate (dv : List (Option ℚ))
    (out_wave : List ℚ) (cutoff : ℚ)
    (h : maskSelect (ok_px dv out_wave cutoff) out_wave = []) :
    normalization dv out_wave cutoff = (none, none, none) := by
  unfold normalization
  rw [h]
  exact linlsq_fit2_nil _

/-- Concrete instance of `normalization_empty_fit_degenerate`: one non-finite
ratio sample and one below-cutoff sample leave nothing to fit. -/
theorem normalization_empty_fit_degenerate_witness :
    maskSelect (ok_px [some 2, none] [1, 3 / 2] (17 / 10)) ([1, 3 / 2] : List ℚ) = [] ∧
    normalization [some 2, none] [1, 3 / 2] (17 / 10) = (none, none, none) :=
  ⟨by norm_num [maskSelect, ok_px, List.filterMap_cons],
    normalization_empty_fit_degenerate [some 2, none] [1, 3 / 2] (17 / 10)
      (by norm_num [maskSelect, ok_px, List.filterMap_cons])⟩

/-- Definition following the claim's words for C7: a fit-sample filter keeping
the finite ratio samples strictly above the wavelength cutoff. -/
def ok_px_strict (dv : List (Option ℚ)) (out_wave : List ℚ) (cutoff : ℚ) : List Bool :=
  List.zipWith (fun d wv => d.isSome && decide (cutoff < wv)) dv out_wave

/-- Counterexample to claim C7: a finite ratio sample whose wavelength equals
the cutoff `17/10` exactly is selected by the notebook's filter
(`out_wave >= 1.70`, inclusive) but would be rejected by the claimed strict
filter, so the fit does not use only samples strictly above the cutoff. -/
theorem ok_px_cutoff_counterexample :
    ok_px [some 1] [17 / 10] (17 / 10) = [true] ∧
    ok_px_strict [some 1] [17 / 10] (17 / 10) = [false] ∧
    maskSelect (ok_px [some 1] [17 / 10] (17 / 10)) ([17 / 10] : List ℚ) = [17 / 10] ∧
    maskSelect (ok_px_strict [some 1] [17 / 10] (17 / 10)) ([17 / 10] : List ℚ) = [] := by
  refine ⟨?_, ?_, ?_, ?_⟩
  · norm_num [ok_px]
  · norm_num [ok_px_strict]
  · norm_num [maskSelect, ok_px, List.filterMap_cons]
  · norm_num [maskSelect, ok_px_strict, List.filterMap_cons]

/-- Claim C7 amended: continuum normalization computes the pointwise ratio of
the resampled comparison over the reference, and fits the degree-2 polynomial
by linear least squares using exactly the samples that are finite and lie at or
above (`≥`, inclusive) the configurable wavelength cutoff; the step only
produces fit coefficients and modifies no flux array. -/
theorem normalization_fit_samples (dv : List (Option ℚ)) (out_wave : List ℚ)
    (cutoff : ℚ) (j : ℕ) (hj : j < dv.length) (hj2 : j < out_wave.length)
    (w2m s2m spec1m : List ℚ) (hq : j < (interp1d w2m s2m out_wave).length)
    (hr : j < spec1m.length) :
    ((ok_px dv out_wave cutoff).getD j false = true ↔
      ((dv.getD j none).isSome = true ∧ cutoff ≤ out_wave.getD j 0)) ∧
    maskSelect (ok_px dv out_wave cutoff) out_wave =
      ((dv.zip out_wave).filter
        (fun q => q.1.isSome && decide (cutoff ≤ q.2))).map Prod.snd ∧
    normalization dv out_wave cutoff =
      linlsq_fit2
        (((dv.zip out_wave).filter
          (fun q => q.1.isSome && decide (cutoff ≤ q.2))).map Prod.snd)
        ((((dv.zip out_wave).filter
          (fun q => q.1.isSome && decide (cutoff ≤ q.2))).map Prod.fst).map
            (fun d => d.getD 0)) ∧
    (div_spec_arr (interp1d w2m s2m out_wave) spec1m).getD j none =
      np_div ((interp1d w2m s2m out_wave).getD j 0) (spec1m.getD j 0) := by
  refine ⟨?_, ?_, ?_, ?_⟩
  · unfold ok_px
    rw [getD_zipWith _ none 0 false dv out_wave j hj hj2]
    simp
  · have h := maskSelect_zipWith_snd
      (fun d wv => d.isSome && decide (cutoff ≤ wv)) dv out_wave
    simpa [ok_px] using h
  · unfold normalization
    have hs := maskSelect_zipWith_snd
      (fun d wv => d.isSome && decide (cutoff ≤ wv)) dv out_wave
    have hf := maskSelect_zipWith_fst
      (fun d wv => d.isSome && decide (cutoff ≤ wv)) dv out_wave
    rw [ok_px, hs, hf]
  · unfold div_spec_arr
    exact getD_zipWith np_div 0 0 none (interp1d w2m s2m out_wave) spec1m j hq hr

/-- Concrete instance of `normalization_fit_samples` with one kept and one
rejected ratio sample. -/
theorem normalization_fit_samples_witness :
    (0 < ([some (2 : ℚ), none]).length ∧ 0 < ([(2 : ℚ), 3]).length ∧
      0 < (interp1d [1, 2] [4, 6] [2, 3]).length ∧ 0 < ([(2 : ℚ), 2]).length) ∧
    (((ok_px [some 2, none] [2, 3] (17 / 10)).getD 0 false = true ↔
      ((([some (2 : ℚ), none]).getD 0 none).isSome = true ∧
        (17 : ℚ) / 10 ≤ ([(2 : ℚ), 3]).getD 0 0)) ∧
    maskSelect (ok_px [some 2, none] [2, 3] (17 / 10)) ([2, 3] : List ℚ) =
      ((([some (2 : ℚ), none]).zip ([2, 3] : List ℚ)).filter
        (fun q => q.1.isSome && decide ((17 : ℚ) / 10 ≤ q.2))).map Prod.snd ∧
    normalization [some 2, none] [2, 3] (17 / 10) =
      linlsq_fit2
        (((([some (2 : ℚ), none]).zip ([2, 3] : List ℚ)).filter
          (fun q => q.1.isSome && decide ((17 : ℚ) / 10 ≤ q.2))).map Prod.snd)
        (((((([some (2 : ℚ), none]).zip ([2, 3] : List ℚ))).filter
          (fun q => q.1.isSome && decide ((17 : ℚ) / 10 ≤ q.2))).map Prod.fst).map
            (fun d => d.getD 0)) ∧
    (div_spec_arr (interp1d [1, 2] [4, 6] [2, 3]) [2, 2]).getD 0 none =
      np_div ((interp1d [1, 2] [4, 6] [2, 3]).getD 0 0) (([(2 : ℚ), 2]).getD 0 0)) :=
  ⟨⟨by decide, by decide, by decide, by decide⟩,
    normalization_fit_samples [some 2, none] [2, 3] (17 / 10) 0 (by decide) (by decide)
      [1, 2] [4, 6] [2, 2] (by decide) (by decide)⟩

lemma np_var_eq_range_sum (d : List ℚ) :
    np_var d = (∑ i in Finset.range d.length,
      (d.getD i 0 - (∑ i in Finset.range d.length, d.getD i 0) / d.length) ^ 2) /
        d.length := by
  unfold np_var np_mean
  rw [List.length_map]
  rw [sum_map_eq_range_sum]
  rw [sum_eq_range_sum d]

/-- Claim C2 amended: for every trial coefficient vector and warped wavelength
array, the registration objective equals the population standard deviation
(numpy default `ddof=0`, divisor `N`, no per-point weighting, over the full
overlap sample set) of the difference spectrum `resampled_comparison −
normalized_reference` — not the unbiased `N − 1` sample standard deviation. -/
theorem fit_metric_population_std
    (poly_coefs old_wave spec2m out_wave scaled_spec1 : List ℚ) :
    fit_metric poly_coefs old_wave spec2m out_wave scaled_spec1 =
      Real.sqrt
        ((((∑ i in Finset.range
              (diff_spec poly_coefs old_wave spec2m out_wave scaled_spec1).length,
            ((diff_spec poly_coefs old_wave spec2m out_wave scaled_spec1).getD i 0 -
              (∑ i in Finset.range
                  (diff_spec poly_coefs old_wave spec2m out_wave scaled_spec1).length,
                (diff_spec poly_coefs old_wave spec2m out_wave scaled_spec1).getD i 0) /
                ((diff_spec poly_coefs old_wave spec2m out_wave scaled_spec1).length : ℚ)) ^ 2) /
          ((diff_spec poly_coefs old_wave spec2m out_wave scaled_spec1).length : ℚ)) : ℚ)) := by
  unfold fit_metric np_std
  rw [np_var_eq_range_sum]

/-- Definition following the claim's words for C2: the unbiased sample standard
deviation, with divisor `N − 1`. -/
noncomputable def unbiased_std (xs : List ℚ) : ℝ :=
  Real.sqrt (((xs.map (fun x => (x - np_mean xs) ^ 2)).sum / ((xs.length : ℚ) - 1) : ℚ))

/-- Counterexample to claim C2: for coefficients `[0, 1]`, warp grid `[0, 1]`,
comparison samples `[0, 2]`, query grid `[0, 1]` and zero reference, the
difference spectrum is `[0, 2]`; the notebook objective (`numpy` `std`,
divisor `N`) is `1` while the claimed unbiased standard deviation
(divisor `N − 1`) is `√2`. -/
theorem fit_metric_not_unbiased_counterexample :
    fit_metric [0, 1] [0, 1] [0, 2] [0, 1] [0, 0] ≠
      unbiased_std (diff_spec [0, 1] [0, 1] [0, 2] [0, 1] [0, 0]) := by
  have hd : diff_spec [0, 1] [0, 1] [0, 2] [0, 1] [0, 0] = [0, 2] := by
    norm_num [diff_spec, alter_spec, alter_wave, alter_wave_aux, interp1d,
      sortPairs, sortPairsInsert, np_searchsorted, List.zipWith]
  intro h
  unfold fit_metric np_std unbiased_std at h
  rw [hd] at h
  have h1 : np_var [0, 2] = (1 : ℚ) := by norm_num [np_var, np_mean]
  have h2 : ((([(0 : ℚ), 2]).map (fun x => (x - np_mean [0, 2]) ^ 2)).sum /
      ((([(0 : ℚ), 2]).length : ℚ) - 1)) = (2 : ℚ) := by
    norm_num [np_mean]
  rw [h1, h2] at h
  have hlt : Real.sqrt ((1 : ℚ) : ℝ) < Real.sqrt ((2 : ℚ) : ℝ) := by
    apply Real.sqrt_lt_sqrt
    · norm_num
    · norm_num
  rw [h] at hlt
  exact lt_irrefl _ hlt

/-- Claim C9: the registration step binds the external minimizer's entire
result and raises nothing: the best coefficient vector, the convergence flag,
the final objective value and the iteration count reported by the optimizer
are all returned to the caller unchanged, so non-convergence is observable
rather than turned into an error. -/
theorem pixel_fit_propagates_status
    (minimize : (List ℚ → List ℚ → ℝ) → List ℚ → List ℚ → OptimizeResult)
    (spec2m out_wave scaled_spec1 old_wave : List ℚ) :
    (pixel_fit_step minimize spec2m out_wave scaled_spec1 old_wave).x =
      (minimize (fun coefs w => fit_metric coefs w spec2m out_wave scaled_spec1)
        [0, 1, 0] old_wave).x ∧
    (pixel_fit_step minimize spec2m out_wave scaled_spec1 old_wave).success =
      (minimize (fun coefs w => fit_metric coefs w spec2m out_wave scaled_spec1)
        [0, 1, 0] old_wave).success ∧
    (pixel_fit_step minimize spec2m out_wave scaled_spec1 old_wave).fun_val =
      (minimize (fun coefs w => fit_metric coefs w spec2m out_wave scaled_spec1)
        [0, 1, 0] old_wave).fun_val ∧
    (pixel_fit_step minimize spec2m out_wave scaled_spec1 old_wave).nit =
      (minimize (fun coefs w => fit_metric coefs w spec2m out_wave scaled_spec1)
        [0, 1, 0] old_wave).nit :=
  ⟨rfl, rfl, rfl, rfl⟩

end SpectralRegistration
